import Mathlib

/-!
Shallow embedding of the expiring key-value store of
alexsandroveiga/redis-like-golang (internal/domain/entity/item.go and
internal/infra/storage/store.go), together with theorems checking the
natural-language specification against it.

Modelling conventions:
* Go strings are modelled as `String`; where Go's `path/filepath.Match`
  walks a string, it is modelled on the rune sequence `List Char`
  (byte-level and rune-level walks agree on well-formed text, and exactly
  on ASCII).
* `time.Now().Unix()` instants are an explicit `now : Int` argument.
* `context.Context` is modelled by the one bit the store reads from it:
  `ctxDone : Bool` stands for `ctx.Err() != nil` at entry.
* The Go map `map[string]*entity.Item` is an association list
  `List (String × Item)`; in-place mutation through the `*entity.Item`
  pointer is an entry update in the list.
* Stateful methods are state-passing: each returns its Go return value
  paired with the store after the call.
-/

set_option autoImplicit false

namespace RedisLike

/-- `entity.Item` (internal/domain/entity/item.go): a stored value plus an
optional absolute expiration instant in epoch seconds (`nil` pointer =
`none`). -/
structure Item where
  value : String
  expiresAt : Option Int
  deriving DecidableEq, Repr

/-- `Item.IsExpired(now)`: expired iff an expiration is present and
`now > *i.ExpiresAt`. -/
def Item.IsExpired (i : Item) (now : Int) : Bool :=
  match i.expiresAt with
  | none => false
  | some t => decide (now > t)

/-- Go map read `item, exists := s.data[key]`. -/
def mapLookup : List (String × Item) → String → Option Item
  | [], _ => none
  | (k, i) :: rest, key => if k = key then some i else mapLookup rest key

/-- Go map deletion `delete(s.data, key)`. -/
def mapErase : List (String × Item) → String → List (String × Item)
  | [], _ => []
  | (k, i) :: rest, key =>
    if k = key then mapErase rest key else (k, i) :: mapErase rest key

/-- Go map write `s.data[key] = item` (insert or overwrite). -/
def mapInsert (d : List (String × Item)) (key : String) (item : Item) :
    List (String × Item) :=
  (key, item) :: mapErase d key

/-- Mutation of the `Item` a key maps to, performed in Go through the
`*entity.Item` pointer stored in the map. -/
def mapUpdate : List (String × Item) → String → (Item → Item) → List (String × Item)
  | [], _, _ => []
  | (k, i) :: rest, key, f =>
    if k = key then (k, f i) :: mapUpdate rest key f
    else (k, i) :: mapUpdate rest key f

/-! ### Go `path/filepath.Match` (Unix), used by `matchPattern` in store.go -/

/-- `filepath.Separator` on Unix. -/
def Separator : Char := '/'

/-- The leading-star loop at the top of Go `scanChunk`: strip the stars in
front of the next chunk, reporting whether there was at least one. -/
def stripStars : List Char → Bool × List Char
  | [] => (false, [])
  | c :: cs => if c = '*' then (true, (stripStars cs).2) else (false, c :: cs)

/-- The `Scan` loop of Go `scanChunk`: collect pattern characters up to the
next `*` that is not inside a `[...]` class; `\` escapes the following
character (Go skips the escaped byte with `i++` when one exists; that
lookahead is `cs.headI`/`cs.tail` here, guarded by `cs = []`). -/
def scanChunkLoop (p : List Char) (inrange : Bool) : List Char × List Char :=
  match p with
  | [] => ([], [])
  | c :: cs =>
    if c = '\\' then
      if cs = [] then ([c], [])
      else
        let r := scanChunkLoop cs.tail inrange
        (c :: cs.headI :: r.1, r.2)
    else if c = '[' then
      let r := scanChunkLoop cs true
      (c :: r.1, r.2)
    else if c = ']' then
      let r := scanChunkLoop cs false
      (c :: r.1, r.2)
    else if c = '*' ∧ inrange = false then
      ([], c :: cs)
    else
      let r := scanChunkLoop cs inrange
      (c :: r.1, r.2)
termination_by p.length
decreasing_by
  all_goals simp only [List.length_cons, List.length_tail]
  all_goals omega

/-- Go `scanChunk`: split the pattern into a leading-star flag, one
star-free chunk, and the rest of the pattern. -/
def scanChunk (pattern : List Char) : Bool × List Char × List Char :=
  let s := stripStars pattern
  let r := scanChunkLoop s.2 false
  (s.1, r.1, r.2)

/-- Go `getEsc`: read one possibly-escaped character of a `[...]` class;
`Except.error ()` is `ErrBadPattern`. -/
def getEsc : List Char → Except Unit (Char × List Char)
  | [] => Except.error ()
  | c :: cs =>
    if c = '-' ∨ c = ']' then Except.error ()
    else if c = '\\' then
      match cs with
      | [] => Except.error ()
      | c2 :: cs2 => if cs2 = [] then Except.error () else Except.ok (c2, cs2)
    else if cs = [] then Except.error () else Except.ok (c, cs)

theorem getEsc_length {chunk rest : List Char} {c : Char}
    (h : getEsc chunk = Except.ok (c, rest)) : rest.length < chunk.length := by
  match chunk with
  | [] => simp [getEsc] at h
  | [c0] =>
    simp only [getEsc] at h
    split at h
    · simp at h
    · split at h
      · simp at h
      · simp at h
  | c0 :: c1 :: cs =>
    simp only [getEsc] at h
    split at h
    · simp at h
    · split at h
      · split at h
        · simp at h
        · simp only [Except.ok.injEq, Prod.mk.injEq] at h
          obtain ⟨h1, h2⟩ := h
          subst h2
          simp only [List.length_cons]
          omega
      · simp only [if_neg (by simp : ¬(c1 :: cs = []))] at h
        simp only [Except.ok.injEq, Prod.mk.injEq] at h
        obtain ⟨h1, h2⟩ := h
        subst h2
        simp only [List.length_cons]
        omega

/-- The range-parsing loop inside the `'['` case of Go `matchChunk`.
`r` is the rune being matched against the class, `m` the accumulated
match flag, `n` the number of ranges parsed so far; on success it returns
the match flag and the chunk remainder after the closing `]`. -/
def parseRanges (chunk : List Char) (r : Char) (m : Bool) (n : Nat) :
    Except Unit (Bool × List Char) :=
  if chunk ≠ [] ∧ chunk.headI = ']' ∧ 0 < n then Except.ok (m, chunk.tail)
  else
    match hlo : getEsc chunk with
    | Except.error e => Except.error e
    | Except.ok (lo, chunk1) =>
      if chunk1.headI = '-' ∧ chunk1 ≠ [] then
        match hhi : getEsc chunk1.tail with
        | Except.error e => Except.error e
        | Except.ok (hi, chunk3) =>
          parseRanges chunk3 r (m || decide (lo ≤ r ∧ r ≤ hi)) (n + 1)
      else
        parseRanges chunk1 r (m || decide (lo ≤ r ∧ r ≤ lo)) (n + 1)
termination_by chunk.length
decreasing_by
  · have h1 := getEsc_length hlo
    have h2 := getEsc_length hhi
    have h3 : chunk1.tail.length ≤ chunk1.length := by
      cases chunk1 <;> simp
    omega
  · have h1 := getEsc_length hlo
    omega

theorem parseRanges_length (r : Char) : ∀ (N : Nat) (chunk : List Char),
    chunk.length ≤ N → ∀ (m m2 : Bool) (n : Nat) (rest : List Char),
    parseRanges chunk r m n = Except.ok (m2, rest) → rest.length < chunk.length := by
  intro N
  induction N with
  | zero =>
    intro chunk hle m m2 n rest h
    have hnil : chunk = [] := by
      cases chunk with
      | nil => rfl
      | cons a b => simp at hle
    subst hnil
    unfold parseRanges at h
    simp [getEsc] at h
  | succ N ih =>
    intro chunk hle m m2 n rest h
    unfold parseRanges at h
    split at h
    · rename_i hguard
      injection h with h1
      injection h1 with h1 h2
      subst h2
      cases chunk with
      | nil => simp at hguard
      | cons a b => simp
    · split at h
      · exact absurd h (by simp)
      · rename_i lo chunk1 hlo
        have hlt1 := getEsc_length hlo
        have htl : chunk1.tail.length ≤ chunk1.length := by
          cases chunk1 <;> simp
        split at h
        · split at h
          · exact absurd h (by simp)
          · rename_i hi chunk3 hhi
            have hlt2 := getEsc_length hhi
            have h3 := ih chunk3 (by omega) _ _ _ _ h
            omega
        · have h3 := ih chunk1 (by omega) _ _ _ _ h
          omega

/-- The character-class head of the `'['` case of Go `matchChunk`: consume
an optional `^`, then the ranges; returns the negation flag, the class
match flag for `r`, and the chunk remainder. -/
def classParse (rest : List Char) (r : Char) : Except Unit (Bool × Bool × List Char) :=
  match rest with
  | '^' :: rest2 =>
    match parseRanges rest2 r false 0 with
    | Except.error e => Except.error e
    | Except.ok (m, rest3) => Except.ok (true, m, rest3)
  | _ =>
    match parseRanges rest r false 0 with
    | Except.error e => Except.error e
    | Except.ok (m, rest3) => Except.ok (false, m, rest3)

theorem classParse_length {rest rest3 : List Char} {r : Char} {neg m : Bool}
    (h : classParse rest r = Except.ok (neg, m, rest3)) : rest3.length < rest.length := by
  unfold classParse at h
  split at h
  · rename_i rest2
    split at h
    · exact absurd h (by simp)
    · rename_i m0 rest0 hpr
      injection h with h1
      injection h1 with h1 h2
      injection h2 with h2 h3
      subst h3
      have := parseRanges_length r rest2.length rest2 (le_refl _) _ _ _ _ hpr
      simp only [List.length_cons]
      omega
  · split at h
    · exact absurd h (by simp)
    · rename_i m0 rest0 hpr
      injection h with h1
      injection h1 with h1 h2
      injection h2 with h2 h3
      subst h3
      exact parseRanges_length r rest.length rest (le_refl _) _ _ _ _ hpr

/-- Go `matchChunk`: match a star-free chunk against the beginning of `s`;
on success return the remainder of `s` after the match.  `failed0` is the
`failed` flag: once the match has failed the chunk is still consumed so
that a malformed pattern is detected, but `s` is no longer read.  Go
reads `s[0]` only under `!failed`, which guarantees `s` non-empty; that
read is `s.headI`/`s.tail` here. -/
def matchChunk (chunk s : List Char) (failed0 : Bool) :
    Except Unit (List Char × Bool) :=
  match chunk with
  | [] => if failed0 then Except.ok ([], false) else Except.ok (s, true)
  | c :: rest =>
    let failed := failed0 || s.isEmpty
    if c = '[' then
      let r := if failed then Char.ofNat 0 else s.headI
      let s2 := if failed then s else s.tail
      match hcp : classParse rest r with
      | Except.error e => Except.error e
      | Except.ok (neg, m, chunk2) => matchChunk chunk2 s2 (failed || (m == neg))
    else if c = '?' then
      if failed then matchChunk rest s true
      else matchChunk rest s.tail (s.headI == Separator)
    else if c = '\\' then
      if rest = [] then Except.error ()
      else
        if failed then matchChunk rest.tail s true
        else matchChunk rest.tail s.tail (rest.headI != s.headI)
    else
      if failed then matchChunk rest s true
      else matchChunk rest s.tail (c != s.headI)
termination_by chunk.length
decreasing_by
  all_goals first
  | (have h9 := classParse_length hcp
     simp only [List.length_cons]
     omega)
  | (simp only [List.length_cons, List.length_tail]
     omega)

/-- The inner star loop of Go `Match`: after a star, try the chunk at each
skip distance, never skipping a separator.  The list argument is the part
of the name from the current skip position on; `pat` is the pattern
remainder after the chunk. -/
def starLoop (chunk pat : List Char) : List Char → Except Unit (Option (List Char))
  | [] => Except.ok none
  | c :: rest =>
    if c = Separator then Except.ok none
    else
      match matchChunk chunk rest false with
      | Except.error e => Except.error e
      | Except.ok (t, ok) =>
        if ok then
          if pat = [] ∧ t ≠ [] then starLoop chunk pat rest
          else Except.ok (some t)
        else starLoop chunk pat rest

theorem stripStars_length (p : List Char) : (stripStars p).2.length ≤ p.length := by
  induction p with
  | nil => simp [stripStars]
  | cons c cs ih =>
    unfold stripStars
    split
    · simp
      omega
    · simp

theorem stripStars_head (p : List Char) :
    ∀ c cs, (stripStars p).2 = c :: cs → c ≠ '*' := by
  induction p with
  | nil => intro c cs h; simp [stripStars] at h
  | cons c0 cs0 ih =>
    intro c cs h
    unfold stripStars at h
    split at h
    · exact ih c cs h
    · rename_i hne
      injection h with h1 h2
      subst h1
      exact hne

theorem scanChunkLoop_length : ∀ (N : Nat) (p : List Char), p.length ≤ N →
    ∀ ir, (scanChunkLoop p ir).2.length ≤ p.length := by
  intro N
  induction N with
  | zero =>
    intro p hle ir
    have hnil : p = [] := by
      cases p with
      | nil => rfl
      | cons a b => simp at hle
    subst hnil
    simp [scanChunkLoop]
  | succ N ih =>
    intro p hle ir
    cases p with
    | nil => simp [scanChunkLoop]
    | cons c cs =>
      have hcs : cs.length ≤ N := by simp at hle; omega
      have htl : cs.tail.length ≤ cs.length := by simp [List.length_tail]
      simp only [scanChunkLoop]
      by_cases h1 : c = '\\'
      · simp only [if_pos h1]
        by_cases h2 : cs = []
        · simp [h2]
        · simp only [if_neg h2]
          have := ih cs.tail (by omega) ir
          simp only [List.length_cons]
          omega
      · simp only [if_neg h1]
        by_cases h2 : c = '['
        · simp only [if_pos h2]
          have := ih cs hcs true
          simp only [List.length_cons]
          omega
        · simp only [if_neg h2]
          by_cases h3 : c = ']'
          · simp only [if_pos h3]
            have := ih cs hcs false
            simp only [List.length_cons]
            omega
          · simp only [if_neg h3]
            by_cases h4 : c = '*' ∧ ir = false
            · simp only [if_pos h4]
              simp
            · simp only [if_neg h4]
              have := ih cs hcs ir
              simp only [List.length_cons]
              omega

theorem scanChunkLoop_cons (c : Char) (cs : List Char) (ir : Bool)
    (h : ¬(c = '*' ∧ ir = false)) :
    (scanChunkLoop (c :: cs) ir).2.length ≤ cs.length := by
  have hlen : ∀ (l : List Char) (b : Bool), (scanChunkLoop l b).2.length ≤ l.length :=
    fun l b => scanChunkLoop_length l.length l (le_refl _) b
  have htl : cs.tail.length ≤ cs.length := by simp [List.length_tail]
  simp only [scanChunkLoop]
  by_cases h1 : c = '\\'
  · simp only [if_pos h1]
    by_cases h2 : cs = []
    · simp [h2]
    · simp only [if_neg h2]
      have := hlen cs.tail ir
      omega
  · simp only [if_neg h1]
    by_cases h2 : c = '['
    · simp only [if_pos h2]
      exact hlen cs true
    · simp only [if_neg h2]
      by_cases h3 : c = ']'
      · simp only [if_pos h3]
        exact hlen cs false
      · simp only [if_neg h3, if_neg h]
        exact hlen cs ir

theorem scanChunk_length (p : List Char) (hp : p ≠ []) :
    (scanChunk p).2.2.length < p.length := by
  have hgoal : (scanChunk p).2.2 = (scanChunkLoop (stripStars p).2 false).2 := rfl
  rw [hgoal]
  cases p with
  | nil => exact absurd rfl hp
  | cons c cs =>
    by_cases hc : c = '*'
    · subst hc
      have hss : (stripStars ('*' :: cs)).2 = (stripStars cs).2 := by
        simp [stripStars]
      rw [hss]
      have hq := stripStars_length cs
      cases hql : (stripStars cs).2 with
      | nil => simp [scanChunkLoop]
      | cons c2 cs2 =>
        have hne := stripStars_head cs c2 cs2 hql
        have := scanChunkLoop_cons c2 cs2 false (by simp [hne])
        rw [hql] at hq
        simp only [List.length_cons] at hq ⊢
        omega
    · have hss : (stripStars (c :: cs)).2 = c :: cs := by
        simp [stripStars, hc]
      rw [hss]
      have := scanChunkLoop_cons c cs false (by simp [hc])
      simp only [List.length_cons]
      omega

/-- The pattern-validation loop Go `Match` runs before returning an
unmatched result, so that a malformed remainder still raises
`ErrBadPattern`. -/
def validateRest (pattern : List Char) : Except Unit Unit :=
  match pattern with
  | [] => Except.ok ()
  | p0 :: prest =>
    match matchChunk (scanChunk (p0 :: prest)).2.1 [] false with
    | Except.error e => Except.error e
    | Except.ok _ => validateRest (scanChunk (p0 :: prest)).2.2
termination_by pattern.length
decreasing_by
  all_goals
    apply scanChunk_length
    simp

/-- The main `Pattern` loop of Go `path/filepath.Match` (Unix separator),
on rune sequences. -/
def MatchLoop (pattern name : List Char) : Except Unit Bool :=
  match pattern with
  | [] => Except.ok name.isEmpty
  | p0 :: prest =>
    let sc := scanChunk (p0 :: prest)
    if sc.1 = true ∧ sc.2.1 = [] then Except.ok (!(name.contains Separator))
    else
      match matchChunk sc.2.1 name false with
      | Except.error e => Except.error e
      | Except.ok (t, ok) =>
        if ok = true ∧ (t = [] ∨ sc.2.2 ≠ []) then MatchLoop sc.2.2 t
        else
          match (if sc.1 = true then starLoop sc.2.1 sc.2.2 name else Except.ok none) with
          | Except.error e => Except.error e
          | Except.ok (some t2) => MatchLoop sc.2.2 t2
          | Except.ok none =>
            match validateRest sc.2.2 with
            | Except.error e => Except.error e
            | Except.ok _ => Except.ok false
termination_by pattern.length
decreasing_by
  all_goals
    apply scanChunk_length
    simp

/-- Go `filepath.Match(pattern, name)` on Unix; `Except.error ()` is
`ErrBadPattern`. -/
def Match (pattern name : String) : Except Unit Bool :=
  MatchLoop pattern.toList name.toList

/-- `matchPattern(key, pattern)` from store.go: `"*"` matches every key;
otherwise `filepath.Match` decides, and a malformed pattern degrades to
exact string equality. -/
def matchPattern (key pattern : String) : Bool :=
  if pattern = "*" then true
  else
    match Match pattern key with
    | Except.error _ => decide (key = pattern)
    | Except.ok m => m

/-! ### The store (internal/infra/storage/store.go) -/

/-- `storage.Store`: the `data map[string]*entity.Item` field.  The mutex
serializes operations; each operation below is one such atomic step. -/
structure Store where
  data : List (String × Item)
  deriving DecidableEq, Repr

/-- `Store.Set`: no-op if the context is done, else insert or overwrite
with a fresh `Item` with `ExpiresAt: nil`. -/
def Store.Set (s : Store) (ctxDone : Bool) (key value : String) : Store :=
  if ctxDone then s
  else ⟨mapInsert s.data key ⟨value, none⟩⟩

/-- `Store.Get`: sentinel on done context; not-found on an absent key and
on an entry expired at `now`; no mutation on any path. -/
def Store.Get (s : Store) (ctxDone : Bool) (now : Int) (key : String) :
    (String × Bool) × Store :=
  if ctxDone then (("", false), s)
  else
    match mapLookup s.data key with
    | none => (("", false), s)
    | some item =>
      if item.IsExpired now then (("", false), s)
      else ((item.value, true), s)

/-- `Store.Del`: remove the entry if present (expired or not). -/
def Store.Del (s : Store) (ctxDone : Bool) (key : String) : Int × Store :=
  if ctxDone then (0, s)
  else
    match mapLookup s.data key with
    | some _ => (1, ⟨mapErase s.data key⟩)
    | none => (0, s)

/-- `Store.Expire`: false if absent, else set `ExpiresAt` to `now`
plus the duration through the item pointer, without reading the previous
expiration. -/
def Store.Expire (s : Store) (ctxDone : Bool) (now : Int) (key : String)
    (durationInSeconds : Int) : Bool × Store :=
  if ctxDone then (false, s)
  else
    match mapLookup s.data key with
    | none => (false, s)
    | some _ =>
      (true, ⟨mapUpdate s.data key
        (fun item => ⟨item.value, some (now + durationInSeconds)⟩)⟩)

/-- `Store.TTL`: -1 if absent, without expiration, or with remaining time
at most 0; otherwise the remaining seconds. -/
def Store.TTL (s : Store) (ctxDone : Bool) (now : Int) (key : String) :
    Int × Store :=
  if ctxDone then (-1, s)
  else
    match mapLookup s.data key with
    | none => (-1, s)
    | some item =>
      match item.expiresAt with
      | none => (-1, s)
      | some t => if t - now ≤ 0 then (-1, s) else (t - now, s)

/-- `Store.Persist`: false if absent, else clear `ExpiresAt` through the
item pointer. -/
def Store.Persist (s : Store) (ctxDone : Bool) (key : String) : Bool × Store :=
  if ctxDone then (false, s)
  else
    match mapLookup s.data key with
    | none => (false, s)
    | some _ => (true, ⟨mapUpdate s.data key (fun item => ⟨item.value, none⟩)⟩)

/-- `Store.Keys`: the keys of the entries that are not expired at `now`
and match the pattern; expired entries are skipped, not removed. -/
def Store.Keys (s : Store) (ctxDone : Bool) (now : Int) (pattern : String) :
    List String × Store :=
  if ctxDone then ([], s)
  else
    ((s.data.filter fun p => !(p.2.IsExpired now) && matchPattern p.1 pattern).map
      Prod.fst, s)

/-- `Store.Exists`: present and not expired at `now`. -/
def Store.Exists (s : Store) (ctxDone : Bool) (now : Int) (key : String) :
    Bool × Store :=
  if ctxDone then (false, s)
  else
    match mapLookup s.data key with
    | none => (false, s)
    | some item => (!(item.IsExpired now), s)

/-- `Store.Size`: `len(s.data)`, the physical entry count. -/
def Store.Size (s : Store) (ctxDone : Bool) : Int × Store :=
  if ctxDone then (0, s)
  else ((s.data.length : Int), s)

/-- `Store.cleanupExpired`: one sweep pass, deleting every entry whose
item is expired as of `now`. -/
def Store.cleanupExpired (s : Store) (now : Int) : Store :=
  ⟨s.data.filter fun p => !(p.2.IsExpired now)⟩

/-! ### The sweeper goroutine started by `Store.StartCleanup` -/

/-- The two events the sweeper's `select` can observe: a ticker fire, or
the stop channel being readable after `Store.StopCleanup` closed it. -/
inductive SweeperEvent where
  | tick
  | stop
  deriving DecidableEq, Repr

/-- One iteration of the goroutine body in `Store.StartCleanup`: which
select case ran, and what the body does — whether it runs
`cleanupExpired`, and whether it returns out of the loop afterwards.  In
the source the `case <-s.stopCleanup:` body is empty and has no `return`
statement, so it neither sweeps nor exits the loop. -/
def sweeperStep : SweeperEvent → Bool × Bool
  | SweeperEvent.tick => (true, false)
  | SweeperEvent.stop => (false, false)

/-- Run the `StartCleanup` goroutine over a finite schedule of observed
select events, each paired with the instant it happens; returns the store
afterwards and whether the goroutine has terminated by then. -/
def sweeperRun (s : Store) : List (SweeperEvent × Int) → Store × Bool
  | [] => (s, false)
  | (ev, t) :: rest =>
    if (sweeperStep ev).2 then (s, true)
    else sweeperRun (if (sweeperStep ev).1 then s.cleanupExpired t else s) rest

/-! ### Spec-side glob semantics, for comparison only -/

/-- Modelled from the spec, not from the source: the ranges of one
`[...]` character class, read as plain characters and `lo-hi` ranges up
to the closing bracket. -/
def specClassElems : List Char → Option (List (Char × Char) × List Char)
  | [] => none
  | ']' :: rest => some ([], rest)
  | lo :: '-' :: hi :: rest =>
    match specClassElems rest with
    | none => none
    | some (es, r) => some ((lo, hi) :: es, r)
  | c :: rest =>
    match specClassElems rest with
    | none => none
    | some (es, r) => some ((c, c) :: es, r)

/-- Modelled from the spec, not from the source: glob matching exactly as
the spec words it — `*` matches any run of characters, `?` a single
character, `[...]` a character class. -/
def specGlobMatch : List Char → List Char → Bool
  | [], name => name.isEmpty
  | '*' :: p, name =>
    specGlobMatch p name ||
      (match name with
       | [] => false
       | _ :: n => specGlobMatch ('*' :: p) n)
  | '?' :: p, name =>
    match name with
    | [] => false
    | _ :: n => specGlobMatch p n
  | '[' :: p, name =>
    match specClassElems p with
    | none => false
    | some (es, prest) =>
      match name with
      | [] => false
      | c :: n => es.any (fun e => decide (e.1 ≤ c ∧ c ≤ e.2)) && specGlobMatch prest n
  | c :: p, name =>
    match name with
    | [] => false
    | nc :: n => (c == nc) && specGlobMatch p n
termination_by p name => (name.length, p.length)
decreasing_by
  · simp only [List.length_cons]
    omega
  · simp only [List.length_cons]
    omega
  · simp only [List.length_cons]
    omega
  · simp only [List.length_cons]
    omega
  · simp only [List.length_cons]
    omega

/-! ### Association-list lemmas -/

theorem mapLookup_mapErase_self (d : List (String × Item)) (k : String) :
    mapLookup (mapErase d k) k = none := by
  induction d with
  | nil => rfl
  | cons p rest ih =>
    obtain ⟨k0, i0⟩ := p
    by_cases h : k0 = k
    · simp only [mapErase, if_pos h]
      exact ih
    · simp only [mapErase, if_neg h, mapLookup]
      exact ih

theorem mapLookup_mapErase_ne (d : List (String × Item)) (k k2 : String)
    (h : k2 ≠ k) : mapLookup (mapErase d k) k2 = mapLookup d k2 := by
  induction d with
  | nil => rfl
  | cons p rest ih =>
    obtain ⟨k0, i0⟩ := p
    by_cases h0 : k0 = k
    · have hne : ¬k0 = k2 := by
        subst h0
        exact fun he => h he.symm
      simp only [mapErase, if_pos h0, mapLookup, if_neg hne]
      exact ih
    · simp only [mapErase, if_neg h0, mapLookup]
      by_cases h2 : k0 = k2
      · simp only [if_pos h2]
      · simp only [if_neg h2]
        exact ih

theorem mapLookup_mapInsert_self (d : List (String × Item)) (k : String) (item : Item) :
    mapLookup (mapInsert d k item) k = some item := by
  simp [mapInsert, mapLookup]

theorem mapLookup_mapInsert_ne (d : List (String × Item)) (k k2 : String) (item : Item)
    (h : k2 ≠ k) : mapLookup (mapInsert d k item) k2 = mapLookup d k2 := by
  have hne : ¬k = k2 := fun he => h he.symm
  simp only [mapInsert, mapLookup, if_neg hne]
  exact mapLookup_mapErase_ne d k k2 h

theorem mapLookup_mapUpdate_self (d : List (String × Item)) (k : String) (f : Item → Item) :
    mapLookup (mapUpdate d k f) k = (mapLookup d k).map f := by
  induction d with
  | nil => rfl
  | cons p rest ih =>
    obtain ⟨k0, i0⟩ := p
    by_cases h : k0 = k
    · subst h
      simp [mapUpdate, mapLookup]
    · simp only [mapUpdate, if_neg h, mapLookup]
      exact ih

theorem mapLookup_mapUpdate_ne (d : List (String × Item)) (k k2 : String) (f : Item → Item)
    (h : k2 ≠ k) : mapLookup (mapUpdate d k f) k2 = mapLookup d k2 := by
  induction d with
  | nil => rfl
  | cons p rest ih =>
    obtain ⟨k0, i0⟩ := p
    by_cases h0 : k0 = k
    · have hne : ¬k0 = k2 := by
        subst h0
        exact fun he => h he.symm
      simp only [mapUpdate, if_pos h0, mapLookup, if_neg hne]
      exact ih
    · simp only [mapUpdate, if_neg h0, mapLookup]
      by_cases h2 : k0 = k2
      · simp only [if_pos h2]
      · simp only [if_neg h2]
        exact ih

/-! ### Glob-matcher lemmas -/

theorem parseRanges_nil (r : Char) (m : Bool) (n : Nat) :
    parseRanges [] r m n = Except.error () := by
  unfold parseRanges
  rfl

theorem classParse_nil (r : Char) : classParse [] r = Except.error () := by
  simp [classParse, parseRanges_nil]

theorem matchChunk_nil (s : List Char) (failed0 : Bool) :
    matchChunk [] s failed0 =
      if failed0 then Except.ok ([], false) else Except.ok (s, true) := by
  simp only [matchChunk]

theorem matchChunk_lbracket_err (s : List Char) (failed0 : Bool) :
    matchChunk ['['] s failed0 = Except.error () := by
  simp only [matchChunk]
  split
  · split
    · rfl
    · rename_i heq
      rw [classParse_nil] at heq
      exact absurd heq (by simp)
  · rename_i hne
    exact absurd trivial hne

theorem Match_lbracket (key : String) : Match "[" key = Except.error () := by
  have h1 : ("[" : String).toList = ['['] := rfl
  unfold Match
  rw [h1]
  have hsc : scanChunk ['['] = (false, ['['], []) := by
    simp [scanChunk, stripStars, scanChunkLoop]
  simp [MatchLoop, hsc, matchChunk_lbracket_err]

theorem matchChunk_failed_literal (pre : List Char)
    (h : ∀ c ∈ pre, c ≠ '[' ∧ c ≠ '\\') (s : List Char) :
    matchChunk pre s true = Except.ok ([], false) := by
  induction pre generalizing s with
  | nil => simp [matchChunk_nil]
  | cons c pr ih =>
    have hc := h c (by simp)
    have hpr : ∀ c2 ∈ pr, c2 ≠ '[' ∧ c2 ≠ '\\' := fun c2 hm => h c2 (by simp [hm])
    have hstep : matchChunk (c :: pr) s true = matchChunk pr s true := by
      simp only [matchChunk, Bool.true_or]
      simp only [if_neg hc.1, if_neg hc.2]
      by_cases hq : c = '?'
      · simp [hq]
      · simp [hq]
    rw [hstep]
    exact ih hpr s

theorem matchChunk_literal (pre : List Char)
    (h : ∀ c ∈ pre, c ≠ '*' ∧ c ≠ '?' ∧ c ≠ '[' ∧ c ≠ '\\') (s : List Char) :
    matchChunk pre s false =
      Except.ok (if pre.isPrefixOf s then (s.drop pre.length, true) else ([], false)) := by
  induction pre generalizing s with
  | nil => simp [matchChunk, List.isPrefixOf]
  | cons c pr ih =>
    have hc := h c (by simp)
    have hpr : ∀ c2 ∈ pr, c2 ≠ '*' ∧ c2 ≠ '?' ∧ c2 ≠ '[' ∧ c2 ≠ '\\' :=
      fun c2 hm => h c2 (by simp [hm])
    have hprf : ∀ c2 ∈ pr, c2 ≠ '[' ∧ c2 ≠ '\\' :=
      fun c2 hm => ⟨(hpr c2 hm).2.2.1, (hpr c2 hm).2.2.2⟩
    cases s with
    | nil =>
      have hstep : matchChunk (c :: pr) [] false = matchChunk pr [] true := by
        simp only [matchChunk, List.isEmpty_nil, Bool.or_true]
        simp only [if_neg hc.2.2.1, if_neg hc.2.1, if_neg hc.2.2.2]
        simp
      rw [hstep, matchChunk_failed_literal pr hprf]
      simp [List.isPrefixOf]
    | cons sc s2 =>
      have hstep : matchChunk (c :: pr) (sc :: s2) false =
          matchChunk pr s2 (c != sc) := by
        simp only [matchChunk, List.isEmpty_cons, Bool.or_false]
        simp only [if_neg hc.2.2.1, if_neg hc.2.1, if_neg hc.2.2.2]
        simp
      rw [hstep]
      by_cases heq : c = sc
      · subst heq
        simp only [bne_self_eq_false]
        rw [ih hpr s2]
        simp [List.isPrefixOf]
      · have hbne : (c != sc) = true := by simp [bne_iff_ne, heq]
        rw [hbne, matchChunk_failed_literal pr hprf]
        have : (c == sc) = false := by simp [heq]
        simp [List.isPrefixOf, this]

theorem scanChunkLoop_literal (pre tail : List Char)
    (h : ∀ c ∈ pre, c ≠ '\\' ∧ c ≠ '[' ∧ c ≠ '*') :
    scanChunkLoop (pre ++ '*' :: tail) false = (pre, '*' :: tail) := by
  induction pre with
  | nil => simp [scanChunkLoop]
  | cons c pr ih =>
    have hc := h c (by simp)
    have hpr : ∀ c2 ∈ pr, c2 ≠ '\\' ∧ c2 ≠ '[' ∧ c2 ≠ '*' :=
      fun c2 hm => h c2 (by simp [hm])
    have hstar : ¬(c = '*' ∧ false = false) := by simp [hc.2.2]
    rw [List.cons_append]
    simp only [scanChunkLoop]
    by_cases hb : c = ']'
    · simp only [if_neg hc.1, if_neg hc.2.1, if_pos hb, ih hpr]
    · simp only [if_neg hc.1, if_neg hc.2.1, if_neg hb, ih hpr]
      simp [hc.2.2]

theorem MatchLoop_star (t : List Char) :
    MatchLoop ['*'] t = Except.ok (!(t.contains Separator)) := by
  have hsc : scanChunk ['*'] = (true, [], []) := by
    simp [scanChunk, stripStars, scanChunkLoop]
  simp [MatchLoop, hsc]

theorem validateRest_star : validateRest ['*'] = Except.ok () := by
  have hsc : scanChunk ['*'] = (true, [], []) := by
    simp [scanChunk, stripStars, scanChunkLoop]
  simp [validateRest, hsc, matchChunk]

theorem MatchLoop_prefix_star (pre name : List Char) (hne : pre ≠ [])
    (hfree : ∀ c ∈ pre, c ≠ '*' ∧ c ≠ '?' ∧ c ≠ '[' ∧ c ≠ '\\') :
    MatchLoop (pre ++ ['*']) name =
      Except.ok (pre.isPrefixOf name && !((name.drop pre.length).contains Separator)) := by
  cases pre with
  | nil => exact absurd rfl hne
  | cons c pr =>
    have hc := hfree c (by simp)
    have hscl : ∀ c2 ∈ c :: pr, c2 ≠ '\\' ∧ c2 ≠ '[' ∧ c2 ≠ '*' := by
      intro c2 hm
      exact ⟨(hfree c2 hm).2.2.2, (hfree c2 hm).2.2.1, (hfree c2 hm).1⟩
    have hstrip : stripStars (c :: (pr ++ ['*'])) = (false, c :: (pr ++ ['*'])) := by
      simp [stripStars, hc.1]
    have hsc : scanChunk (c :: (pr ++ ['*'])) = (false, c :: pr, ['*']) := by
      have hloop := scanChunkLoop_literal (c :: pr) [] hscl
      rw [List.cons_append] at hloop
      show ((stripStars (c :: (pr ++ ['*']))).1,
        (scanChunkLoop (stripStars (c :: (pr ++ ['*']))).2 false).1,
        (scanChunkLoop (stripStars (c :: (pr ++ ['*']))).2 false).2) = (false, c :: pr, ['*'])
      rw [hstrip]
      simp [hloop]
    rw [List.cons_append]
    simp only [MatchLoop]
    rw [hsc]
    simp only [matchChunk_literal (c :: pr) hfree name]
    by_cases hpf : (c :: pr).isPrefixOf name = true
    · simp [hpf, MatchLoop_star]
    · have hpf2 : (c :: pr).isPrefixOf name = false := by
        cases hx : (c :: pr).isPrefixOf name
        · rfl
        · exact absurd hx hpf
      simp [hpf2, validateRest_star]

theorem MatchLoop_question (c : Char) :
    MatchLoop ['?'] [c] = Except.ok (!(c == Separator)) := by
  have hsc : scanChunk ['?'] = (false, ['?'], []) := by
    simp [scanChunk, stripStars, scanChunkLoop]
  have hmc : matchChunk ['?'] [c] false = Except.ok ([], !(c == Separator)) := by
    by_cases hcs : c = Separator
    · simp [matchChunk, hcs]
    · simp [matchChunk, hcs]
  by_cases hcs : c = Separator
  · subst hcs
    simp [MatchLoop, hsc, hmc, validateRest]
  · simp [MatchLoop, hsc, hmc, hcs]

/-! ### Claim theorems -/

/-- Claim C1: for every key and instant `now`, `Get` reports
`found = false` exactly when the key is absent from the map or its item
is expired at `now` (an expiration is present and `now` is past it);
`Exists` is true exactly when the key is present and not expired; and
neither operation removes the entry or changes any store state. -/
theorem C1_get_exists_lazy_expiry (s : Store) (now : Int) (key : String) :
    (s.Get false now key).2 = s ∧
    (s.Exists false now key).2 = s ∧
    ((s.Get false now key).1.2 = false ↔
      mapLookup s.data key = none ∨
        (∃ item t, mapLookup s.data key = some item ∧
          item.expiresAt = some t ∧ now > t)) ∧
    ((s.Exists false now key).1 = true ↔
      (∃ item, mapLookup s.data key = some item ∧
        ¬(∃ t, item.expiresAt = some t ∧ now > t))) := by
  cases hlk : mapLookup s.data key with
  | none =>
    simp [Store.Get, Store.Exists, hlk]
  | some item =>
    cases hexp : item.expiresAt with
    | none =>
      simp [Store.Get, Store.Exists, Item.IsExpired, hlk, hexp]
    | some t =>
      by_cases hn : now > t
      · simp [Store.Get, Store.Exists, Item.IsExpired, hlk, hexp, hn]
      · simp [Store.Get, Store.Exists, Item.IsExpired, hlk, hexp, hn]
        omega

/-- Claim C2: when the cancellation signal is already triggered at entry
(`ctx.Err() != nil`), every store operation leaves the map unchanged and
returns its sentinel: not-found for `Get`, 0 for `Del`, false for
`Expire`, `Persist` and `Exists`, -1 for `TTL`, 0 for `Size`, and an
empty collection for `Keys`. -/
theorem C2_cancelled_context_sentinels (s : Store) (now d : Int)
    (key value pattern : String) :
    s.Set true key value = s ∧
    s.Get true now key = (("", false), s) ∧
    s.Del true key = (0, s) ∧
    s.Expire true now key d = (false, s) ∧
    s.TTL true now key = (-1, s) ∧
    s.Persist true key = (false, s) ∧
    s.Keys true now pattern = ([], s) ∧
    s.Exists true now key = (false, s) ∧
    s.Size true = (0, s) :=
  ⟨rfl, rfl, rfl, rfl, rfl, rfl, rfl, rfl, rfl⟩

/-- Claim C3: `Expire` returns false exactly when the key is absent (and
then changes nothing); on any present key — expired-but-unswept included,
since the prior expiration is never examined — it returns true and sets
the item's expiration to `now` plus the duration, which revives an
expired entry: the key exists again at every instant not past the new
deadline. -/
theorem C3_expire_sets_deadline_and_revives (s : Store) (now d : Int) (key : String) :
    ((s.Expire false now key d).1 = false ↔ mapLookup s.data key = none) ∧
    (mapLookup s.data key = none → (s.Expire false now key d).2 = s) ∧
    (∀ item, mapLookup s.data key = some item →
      (s.Expire false now key d).1 = true ∧
      mapLookup (s.Expire false now key d).2.data key =
        some ⟨item.value, some (now + d)⟩ ∧
      (∀ now2, ¬now2 > now + d →
        ((s.Expire false now key d).2.Exists false now2 key).1 = true)) := by
  cases hlk : mapLookup s.data key with
  | none => simp [Store.Expire, hlk]
  | some item0 =>
    refine ⟨by simp [Store.Expire, hlk], by simp [hlk], ?_⟩
    intro item hitem
    injection hitem with hitem
    subst hitem
    refine ⟨by simp [Store.Expire, hlk], ?_, ?_⟩
    · simp [Store.Expire, hlk, mapLookup_mapUpdate_self]
    · intro now2 hnow2
      simp [Store.Expire, hlk, Store.Exists, mapLookup_mapUpdate_self,
        Item.IsExpired, hnow2]

/-- Witness for C3 at a concrete input: a key whose item is already
expired (`expiresAt = 0`, `now = 5`) is still revived by
`Expire(key, 10)`: the call returns true, the deadline becomes 15, and
the key exists again at instant 15. -/
theorem C3_expire_sets_deadline_and_revives_witness :
    ((Store.mk [("k", ⟨"v", some 0⟩)]).Expire false 5 "k" 10).1 = true ∧
    mapLookup ((Store.mk [("k", ⟨"v", some 0⟩)]).Expire false 5 "k" 10).2.data "k" =
      some ⟨"v", some 15⟩ ∧
    (((Store.mk [("k", ⟨"v", some 0⟩)]).Expire false 5 "k" 10).2.Exists false 15 "k").1
      = true := by
  have h := (C3_expire_sets_deadline_and_revives (Store.mk [("k", ⟨"v", some 0⟩)])
    5 10 "k").2.2 ⟨"v", some 0⟩ (by simp [mapLookup])
  refine ⟨h.1, ?_, h.2.2 15 (by omega)⟩
  have h2 := h.2.1
  norm_num at h2 ⊢
  exact h2

/-- Claim C4 (amended): `Keys` returns exactly the keys of the entries
that are not expired at `now` and match the pattern, without changing
the store; `"*"` matches every key; any other pattern is decided by the
embedded `filepath.Match` glob matcher, in which `*` matches any run of
non-separator characters and `?` a single non-separator character
(neither ever matches `'/'`), a malformed pattern degrades to exact
string equality with the key, and expired entries are excluded without
being removed. -/
theorem C4_keys_glob_amended (s : Store) (now : Int) (p key : String) (m : Bool)
    (pre : List Char) :
    (s.Keys false now p).2 = s ∧
    (key ∈ (s.Keys false now p).1 ↔
      ∃ item, (key, item) ∈ s.data ∧ item.IsExpired now = false ∧
        matchPattern key p = true) ∧
    matchPattern key "*" = true ∧
    (Match p key = Except.error () → (matchPattern key p = true ↔ key = p)) ∧
    (p ≠ "*" → Match p key = Except.ok m → matchPattern key p = m) ∧
    (pre ≠ [] → (∀ c ∈ pre, c ≠ '*' ∧ c ≠ '?' ∧ c ≠ '[' ∧ c ≠ '\\') →
      ∀ name : List Char, MatchLoop (pre ++ ['*']) name =
        Except.ok (pre.isPrefixOf name &&
          !((name.drop pre.length).contains Separator))) ∧
    (∀ c : Char, MatchLoop ['?'] [c] = Except.ok (!(c == Separator))) := by
  refine ⟨rfl, ?_, ?_, ?_, ?_, ?_, ?_⟩
  · have hkeys : (s.Keys false now p).1 =
        (s.data.filter fun q => !(q.2.IsExpired now) && matchPattern q.1 p).map
          Prod.fst := rfl
    rw [hkeys]
    simp only [List.mem_map, List.mem_filter]
    constructor
    · rintro ⟨⟨k1, item⟩, ⟨hmem, hpred⟩, hfst⟩
      subst hfst
      simp only [Bool.and_eq_true, Bool.not_eq_true'] at hpred
      exact ⟨item, hmem, hpred.1, hpred.2⟩
    · rintro ⟨item, hmem, hexp, hmatch⟩
      exact ⟨(key, item), ⟨hmem, by simp [hexp, hmatch]⟩, rfl⟩
  · simp [matchPattern]
  · intro herr
    by_cases hp : p = "*"
    · subst hp
      have hstar : Match "*" key = MatchLoop ['*'] key.toList := rfl
      rw [hstar, MatchLoop_star key.toList] at herr
      exact absurd herr (by simp)
    · simp [matchPattern, hp, herr]
  · intro hp hok
    simp [matchPattern, hp, hok]
  · intro hne hfree name
    exact MatchLoop_prefix_star pre name hne hfree
  · intro c
    exact MatchLoop_question c

/-- Claim C4 is refuted as stated: under the spec's wording `*` matches
any run of characters, so the key `a/b` matches the pattern `a*` (the
spec-side matcher `specGlobMatch` accepts it); the code's matcher rejects
it because `*` never matches the separator `/`, and `Keys` with pattern
`a*` on a store holding only the live key `a/b` returns the empty list
rather than that key. -/
theorem C4_star_any_run_refuted :
    specGlobMatch "a*".toList "a/b".toList = true ∧
    matchPattern "a/b" "a*" = false ∧
    ((Store.mk [("a/b", ⟨"v", none⟩)]).Keys false 0 "a*").1 = [] := by
  have hm : matchPattern "a/b" "a*" = false := by
    simp [matchPattern, Match, MatchLoop, scanChunk, stripStars, scanChunkLoop,
      matchChunk, starLoop, validateRest, Separator]
  refine ⟨by simp [specGlobMatch], hm, ?_⟩
  simp [Store.Keys, Item.IsExpired, hm]

/-- Witness for the amended C4 at concrete inputs: on a store holding the
live key `user:1` and the expired key `tmp`, `Keys "user:*"` contains
`user:1`; the matcher accepts `user:1` against `user:*` but rejects
`user:a/b` (the star does not cross `/`); the malformed pattern `[`
degrades to exact equality; and `?` matches `x`. -/
theorem C4_keys_glob_amended_witness :
    "user:1" ∈ ((Store.mk [("user:1", ⟨"v", none⟩), ("tmp", ⟨"w", some 3⟩)]).Keys
      false 10 "user:*").1 ∧
    matchPattern "user:1" "user:*" = true ∧
    (matchPattern "[" "[" = true ↔ ("[" : String) = "[") ∧
    MatchLoop ("user:".toList ++ ['*']) "user:a/b".toList = Except.ok false ∧
    MatchLoop ['?'] ['x'] = Except.ok true := by
  have h := C4_keys_glob_amended
    (Store.mk [("user:1", ⟨"v", none⟩), ("tmp", ⟨"w", some 3⟩)])
    10 "user:*" "user:1" true "user:".toList
  have hf := h.2.2.2.2.2.1 (by decide) (by decide)
  have hml1 : MatchLoop ("user:".toList ++ ['*']) "user:1".toList = Except.ok true := by
    rw [hf "user:1".toList]
    exact congrArg Except.ok (by decide)
  have hmp : matchPattern "user:1" "user:*" = true := by
    apply h.2.2.2.2.1 (by decide)
    show MatchLoop "user:*".toList "user:1".toList = Except.ok true
    have hsplit : ("user:*" : String).toList = "user:".toList ++ ['*'] := by decide
    rw [hsplit]
    exact hml1
  have hmem : "user:1" ∈ ((Store.mk [("user:1", ⟨"v", none⟩),
      ("tmp", ⟨"w", some 3⟩)]).Keys false 10 "user:*").1 :=
    (h.2.1).2 ⟨⟨"v", none⟩, by simp, rfl, hmp⟩
  have hml2 : MatchLoop ("user:".toList ++ ['*']) "user:a/b".toList =
      Except.ok false := by
    rw [hf "user:a/b".toList]
    exact congrArg Except.ok (by decide)
  have h2 := C4_keys_glob_amended
    (Store.mk [("user:1", ⟨"v", none⟩), ("tmp", ⟨"w", some 3⟩)])
    10 "[" "[" true "user:".toList
  have hd := h2.2.2.2.1 (Match_lbracket "[")
  have hq := h.2.2.2.2.2.2 'x'
  exact ⟨hmem, hmp, hd, hml2, by simpa using hq⟩

/-- Claim C5: `Set` replaces any existing entry with a fresh item with no
expiration: immediately afterwards `TTL` is -1, `Exists` is true and
`Get` returns the new value as found — also when an `Expire` had been
applied to the key just before the `Set` — and entries under other keys
are untouched. -/
theorem C5_set_overwrites_and_resets_ttl (s : Store) (now now0 d : Int)
    (k k2 v : String) :
    mapLookup (s.Set false k v).data k = some ⟨v, none⟩ ∧
    ((s.Set false k v).TTL false now k).1 = -1 ∧
    ((s.Set false k v).Exists false now k).1 = true ∧
    ((s.Set false k v).Get false now k).1 = (v, true) ∧
    (((s.Expire false now0 k d).2.Set false k v).TTL false now k).1 = -1 ∧
    (k2 ≠ k → mapLookup (s.Set false k v).data k2 = mapLookup s.data k2) := by
  refine ⟨?_, ?_, ?_, ?_, ?_, ?_⟩
  · simp [Store.Set, mapLookup_mapInsert_self]
  · simp [Store.Set, Store.TTL, mapLookup_mapInsert_self]
  · simp [Store.Set, Store.Exists, mapLookup_mapInsert_self, Item.IsExpired]
  · simp [Store.Set, Store.Get, mapLookup_mapInsert_self, Item.IsExpired]
  · simp [Store.Set, Store.TTL, mapLookup_mapInsert_self]
  · intro h
    simp [Store.Set, mapLookup_mapInsert_ne _ _ _ _ h]

/-- Witness for C5 at a concrete input: after `Expire("k", 100)` at
instant 0 and then `Set("k", "w")`, the TTL sentinel is -1, and a
sibling key is untouched by the `Set`. -/
theorem C5_set_overwrites_and_resets_ttl_witness :
    ((((Store.mk [("k", ⟨"v", none⟩), ("j", ⟨"u", none⟩)]).Expire false 0 "k" 100).2.Set
        false "k" "w").TTL false 1 "k").1 = -1 ∧
    mapLookup ((Store.mk [("k", ⟨"v", none⟩), ("j", ⟨"u", none⟩)]).Set false "k" "w").data
      "j" = some ⟨"u", none⟩ := by
  have h := C5_set_overwrites_and_resets_ttl
    (Store.mk [("k", ⟨"v", none⟩), ("j", ⟨"u", none⟩)]) 1 0 100 "k" "j" "w"
  refine ⟨h.2.2.2.2.1, ?_⟩
  have h2 := h.2.2.2.2.2 (by decide)
  rw [h2]
  simp [mapLookup]

/-- Claim C6: `TTL` returns -1 exactly when the key is absent, has no
expiration, or has remaining time at most 0; otherwise it returns exactly
`expiresAt - now`, which is strictly positive; and immediately after a
successful `Expire` with a positive duration `d`, the TTL is in `(0, d]`. -/
theorem C6_ttl_values (s : Store) (now : Int) (k : String) (d : Int) :
    ((s.TTL false now k).1 = -1 ↔
      mapLookup s.data k = none ∨
        (∃ item, mapLookup s.data k = some item ∧ item.expiresAt = none) ∨
        (∃ item t, mapLookup s.data k = some item ∧ item.expiresAt = some t ∧
          t - now ≤ 0)) ∧
    (∀ item t, mapLookup s.data k = some item → item.expiresAt = some t →
      0 < t - now → (s.TTL false now k).1 = t - now) ∧
    ((s.TTL false now k).1 = -1 ∨ 0 < (s.TTL false now k).1) ∧
    (∀ item, mapLookup s.data k = some item → 0 < d →
      0 < ((s.Expire false now k d).2.TTL false now k).1 ∧
      ((s.Expire false now k d).2.TTL false now k).1 ≤ d) := by
  cases hlk : mapLookup s.data k with
  | none => simp [Store.TTL, hlk]
  | some item0 =>
    refine ⟨?_, ?_, ?_, ?_⟩
    · cases hexp : item0.expiresAt with
      | none => simp [Store.TTL, hlk, hexp]
      | some t =>
        by_cases ht : t - now ≤ 0
        · simp [Store.TTL, hlk, hexp, ht]
          omega
        · simp [Store.TTL, hlk, hexp, ht]
          omega
    · intro item t hitem hexp hpos
      injection hitem with hitem
      subst hitem
      have : ¬t - now ≤ 0 := by omega
      simp [Store.TTL, hlk, hexp, this]
    · cases hexp : item0.expiresAt with
      | none => simp [Store.TTL, hlk, hexp]
      | some t =>
        by_cases ht : t - now ≤ 0
        · simp [Store.TTL, hlk, hexp, ht]
        · simp [Store.TTL, hlk, hexp, ht]
          omega
    · intro item hitem hd
      have h0 : ¬d ≤ 0 := by omega
      simp [Store.Expire, hlk, Store.TTL, mapLookup_mapUpdate_self, h0]
      omega

/-- Witness for C6 at a concrete input: an item with deadline 7 read at
instant 4 has TTL 3; after `Expire` with duration 10 at instant 4 the
TTL is 10, inside `(0, 10]`. -/
theorem C6_ttl_values_witness :
    ((Store.mk [("k", ⟨"v", some 7⟩)]).TTL false 4 "k").1 = 3 ∧
    0 < (((Store.mk [("k", ⟨"v", some 7⟩)]).Expire false 4 "k" 10).2.TTL false 4 "k").1 ∧
    (((Store.mk [("k", ⟨"v", some 7⟩)]).Expire false 4 "k" 10).2.TTL false 4 "k").1 ≤ 10 := by
  have h := C6_ttl_values (Store.mk [("k", ⟨"v", some 7⟩)]) 4 "k" 10
  have h1 := h.2.1 ⟨"v", some 7⟩ 7 (by simp [mapLookup]) rfl (by omega)
  have h2 := h.2.2.2 ⟨"v", some 7⟩ (by simp [mapLookup]) (by omega)
  refine ⟨?_, h2.1, h2.2⟩
  rw [h1]
  norm_num

/-- Claim C7: `Size` counts the physical entries, expired-but-unswept
ones included; and one sweep pass at instant `t` keeps exactly the
entries not expired at `t`, so afterwards `Size` equals the number of
entries that were live at `t`. -/
theorem C7_size_physical_and_sweep (s : Store) (t : Int) :
    (s.Size false).1 = (s.data.length : Int) ∧
    ((s.cleanupExpired t).Size false).1 =
      ((s.data.filter fun p => !(p.2.IsExpired t)).length : Int) ∧
    (∀ k item, (k, item) ∈ (s.cleanupExpired t).data ↔
      (k, item) ∈ s.data ∧ item.IsExpired t = false) := by
  refine ⟨rfl, rfl, ?_⟩
  intro k item
  simp [Store.cleanupExpired, List.mem_filter]

/-- Claim C8: `Persist` returns false and changes nothing exactly when
the key is absent; on a present key it returns true and clears the
expiration — the value is kept, the TTL sentinel becomes -1 — and
entries under other keys are untouched. -/
theorem C8_persist_clears_ttl (s : Store) (now : Int) (k k2 : String) :
    ((s.Persist false k).1 = false ↔ mapLookup s.data k = none) ∧
    (mapLookup s.data k = none → (s.Persist false k).2 = s) ∧
    (∀ item, mapLookup s.data k = some item →
      (s.Persist false k).1 = true ∧
      mapLookup (s.Persist false k).2.data k = some ⟨item.value, none⟩ ∧
      ((s.Persist false k).2.TTL false now k).1 = -1) ∧
    (k2 ≠ k → mapLookup (s.Persist false k).2.data k2 = mapLookup s.data k2) := by
  cases hlk : mapLookup s.data k with
  | none =>
    refine ⟨by simp [Store.Persist, hlk], by simp [Store.Persist, hlk], ?_, ?_⟩
    · intro item hitem
      simp at hitem
    · intro h
      simp [Store.Persist, hlk]
  | some item0 =>
    refine ⟨by simp [Store.Persist, hlk], by simp [hlk], ?_, ?_⟩
    · intro item hitem
      injection hitem with hitem
      subst hitem
      refine ⟨by simp [Store.Persist, hlk], ?_, ?_⟩
      · simp [Store.Persist, hlk, mapLookup_mapUpdate_self]
      · simp [Store.Persist, hlk, Store.TTL, mapLookup_mapUpdate_self]
    · intro h
      simp [Store.Persist, hlk, mapLookup_mapUpdate_ne _ _ _ _ h]

/-- Witness for C8 at a concrete input: persisting a key with an active
expiration keeps its value, makes its TTL -1, and leaves a sibling key
untouched. -/
theorem C8_persist_clears_ttl_witness :
    ((Store.mk [("k", ⟨"v", some 9⟩), ("j", ⟨"u", some 3⟩)]).Persist false "k").1 = true ∧
    mapLookup ((Store.mk [("k", ⟨"v", some 9⟩), ("j", ⟨"u", some 3⟩)]).Persist
      false "k").2.data "k" = some ⟨"v", none⟩ ∧
    (((Store.mk [("k", ⟨"v", some 9⟩), ("j", ⟨"u", some 3⟩)]).Persist
      false "k").2.TTL false 0 "k").1 = -1 ∧
    mapLookup ((Store.mk [("k", ⟨"v", some 9⟩), ("j", ⟨"u", some 3⟩)]).Persist
      false "k").2.data "j" = some ⟨"u", some 3⟩ := by
  have h := C8_persist_clears_ttl
    (Store.mk [("k", ⟨"v", some 9⟩), ("j", ⟨"u", some 3⟩)]) 0 "k" "j"
  have h1 := h.2.2.1 ⟨"v", some 9⟩ (by simp [mapLookup])
  have h2 := h.2.2.2 (by decide)
  refine ⟨h1.1, h1.2.1, h1.2.2, ?_⟩
  rw [h2]
  simp [mapLookup]

/-- Claim C9 (the code contradicts it): in `Store.StartCleanup` the
`select` case for the stop channel has an empty body and no `return`
statement, so the observed stop event neither terminates the loop nor
prevents later ticks from sweeping: after a stop, a tick still deletes an
expired entry and the goroutine has not terminated. -/
theorem C9_sweeper_ignores_stop :
    sweeperStep SweeperEvent.stop = (false, false) ∧
    sweeperRun (Store.mk [("k", ⟨"v", some 0⟩)])
        [(SweeperEvent.stop, 5), (SweeperEvent.tick, 6)] =
      (Store.mk [], false) := by
  constructor
  · rfl
  · rfl

/-- Claim C10: expiry uses the strict comparison `now > expiresAt`, so at
the exact deadline instant an item is not yet expired: `Get` still
returns its value as found and `Exists` is still true, while `TTL`
already returns the -1 sentinel because the remaining time is 0. -/
theorem C10_boundary_instant (s : Store) (k : String) (t : Int) (item : Item) :
    mapLookup s.data k = some item → item.expiresAt = some t →
      item.IsExpired t = false ∧
      (s.Get false t k).1 = (item.value, true) ∧
      (s.Exists false t k).1 = true ∧
      (s.TTL false t k).1 = -1 := by
  intro hlk hexp
  have hie : item.IsExpired t = false := by simp [Item.IsExpired, hexp]
  refine ⟨hie, ?_, ?_, ?_⟩
  · simp [Store.Get, hlk, hie]
  · simp [Store.Exists, hlk, hie]
  · simp [Store.TTL, hlk, hexp]

/-- Witness for C10 at a concrete input: an item with deadline 8, read
exactly at instant 8, is still found by `Get` and `Exists` while `TTL`
reports -1. -/
theorem C10_boundary_instant_witness :
    ((Store.mk [("k", ⟨"v", some 8⟩)]).Get false 8 "k").1 = ("v", true) ∧
    ((Store.mk [("k", ⟨"v", some 8⟩)]).Exists false 8 "k").1 = true ∧
    ((Store.mk [("k", ⟨"v", some 8⟩)]).TTL false 8 "k").1 = -1 := by
  have h := C10_boundary_instant (Store.mk [("k", ⟨"v", some 8⟩)]) "k" 8
    ⟨"v", some 8⟩ (by simp [mapLookup]) rfl
  exact ⟨h.2.1, h.2.2.1, h.2.2.2⟩

end RedisLike
